import Mathlib

/-!
A shallow embedding of the `nqueen` repository (src/lib.rs and src/main.rs),
together with theorems settling the specification claims about it.

Modelling conventions:
- Machine integers (`usize`) are `Nat`; the `usize → i32` conversion in
  `Board::checking` is modelled explicitly, with the panicking `unwrap`
  represented by `Option` (`none` = panic).
- Randomness (`thread_rng().gen_range(0..k)`) is modelled by an explicit
  stream of pre-drawn naturals: each draw takes the head of the stream
  (`0` once exhausted) and reduces it `% k`.  Only the trace semantics
  matter for the claims, not the distribution.
- Rust panics (`unwrap`, `expect`, index out of bounds, `assert!`) are
  modelled by `Option`, with `none` meaning the program aborts.
- Unbounded `loop`s (the destination search of `Board::move_most_checked`)
  are modelled with fuel derived from the remaining random stream; fuel
  exhaustion is `none` (divergence beyond the modelled random horizon).
-/

/-- A point on a chess board (src/lib.rs, struct Point). -/

structure Point where
  row : Nat
  col : Nat
deriving DecidableEq

/-- The random stream: the successive raw outputs of the RNG. -/
abbrev RandS := List Nat

/-- Take one raw value from the stream (0 when exhausted). -/
def drawNat (s : RandS) : Nat × RandS :=
  match s with
  | [] => (0, [])
  | a :: r => (a, r)

/-- Model of rand's gen_range(0..k): next raw value reduced mod k. -/
def genRange (k : Nat) (s : RandS) : Nat × RandS :=
  let (v, s') := drawNat s
  (v % k, s')

/-- Point::random (src/lib.rs:23-29): row then col, each gen_range(0..n). -/
def Point.random (n : Nat) (s : RandS) : Point × RandS :=
  let (r, s1) := genRange n s
  let (c, s2) := genRange n s1
  (⟨r, c⟩, s2)

/-- i32::MAX, the bound of the TryInto conversion in src/lib.rs:40-46. -/
def I32_MAX : Nat := 2147483647

/-- TryInto<(i32, i32)> for &Point (src/lib.rs:40-46): succeeds iff both
coordinates fit in an i32. -/
def Point.tryIntoI32 (p : Point) : Option (Int × Int) :=
  if p.row ≤ I32_MAX ∧ p.col ≤ I32_MAX then some ((p.row : Int), (p.col : Int))
  else none

/-- Board::checking (src/lib.rs:142-149), with the panic of the two
unwrapped conversions modelled as none.  Equal points short-circuit to
false before any conversion. -/
def Board.checking (queen1 queen2 : Point) : Option Bool :=
  if queen1 = queen2 then some false
  else
    match queen1.tryIntoI32, queen2.tryIntoI32 with
    | some (x1, y1), some (x2, y2) =>
        some (x1 = x2 ∨ y1 = y2 ∨ (x1 - x2).natAbs = (y1 - y2).natAbs)
    | _, _ => none

/-- The total conflict predicate: Board::checking on its non-panicking
domain.  Since the i32 conversion is exact when it succeeds, this computes
the same row/col/diagonal test directly on the Nat coordinates (via Int
subtraction, which cannot overflow for values that fit an i32). -/
def checkingTotal (queen1 queen2 : Point) : Bool :=
  if queen1 = queen2 then false
  else
    decide ((queen1.row : Int) = queen2.row ∨ (queen1.col : Int) = queen2.col ∨
      ((queen1.row : Int) - queen2.row).natAbs = ((queen1.col : Int) - queen2.col).natAbs)

/-- Represents an n*n chess board (src/lib.rs, struct Board). -/
structure Board where
  queens : List Point
  n : Nat
  check_data : List (List Point)
  max_checks : Nat
deriving DecidableEq

/-- Board::new (src/lib.rs:68-75). -/
def Board.new (n : Nat) : Board :=
  ⟨[], n, [], 0⟩

/-- The inner loop of Board::update_check_data for one queen: collect, in
order, every queen of the list that checks it (panic propagates). -/
def threatsOf (q : Point) : List Point → Option (List Point)
  | [] => some []
  | r :: rest =>
    match Board.checking q r with
    | none => none
    | some c =>
      match threatsOf q rest with
      | none => none
      | some t => some (if c then r :: t else t)

/-- The nested loops of Board::update_check_data (src/lib.rs:157-174):
for each queen, the list of queens checking it. -/
def check_data_of (qs : List Point) : Option (List (List Point)) :=
  go qs
where
  go : List Point → Option (List (List Point))
    | [] => some []
    | q :: rest =>
      match threatsOf q qs, go rest with
      | some t, some v => some (t :: v)
      | _, _ => none

/-- The value check_data_of computes when it does not panic, expressed
with the total predicate. -/
def computeCheckData (qs : List Point) : List (List Point) :=
  qs.map (fun q => qs.filter (fun r => checkingTotal q r))

/-- Board::update_check_data (src/lib.rs:157-174): recompute check_data
and max_checks wholesale from the queen list. -/
def Board.update_check_data (b : Board) : Option Board :=
  match check_data_of b.queens with
  | none => none
  | some v =>
      some { b with
        check_data := v
        max_checks := b.queens.length * (b.queens.length - 1) / 2 }

/-- Error string ALREADY_FILLED_POINT_ERROR (src/lib.rs:8). -/
def ALREADY_FILLED : String := "The point is already taken."

deriving instance DecidableEq for Except

/-- Board::place (src/lib.rs:113-121).  The pair mirrors the Rust
signature (&mut self, Result<(), &str>): the returned board is the state
after the call; outer none is a panic inside update_check_data. -/
def Board.place (b : Board) (point : Point) : Option (Board × Except String Unit) :=
  if point ∈ b.queens then some (b, .error ALREADY_FILLED)
  else
    match Board.update_check_data { b with queens := b.queens ++ [point] } with
    | none => none
    | some b' => some (b', .ok ())

/-- Board::index_of (src/lib.rs:222-224): first index holding the point. -/
def Board.index_of (b : Board) (point : Point) : Option Nat :=
  b.queens.findIdx? (fun p => decide (p = point))

/-- Board::capture (src/lib.rs:124-127); none is the unwrap panic on a
missing point (or a panic inside update_check_data). -/
def Board.capture (b : Board) (point : Point) : Option Board :=
  match b.index_of point with
  | none => none
  | some i => Board.update_check_data { b with queens := b.queens.eraseIdx i }

/-- Board::mov (src/lib.rs:130-139): push the destination first, then
remove the first occurrence of the source (index looked up after the
push), then recompute.  none is the unwrap panic on a missing source. -/
def Board.mov (b : Board) (from_ to_ : Point) : Option (Board × Except String Unit) :=
  if to_ ∈ b.queens then some (b, .error ALREADY_FILLED)
  else
    let q1 := b.queens ++ [to_]
    match q1.findIdx? (fun p => decide (p = from_)) with
    | none => none
    | some i =>
      match Board.update_check_data { b with queens := q1.eraseIdx i } with
      | none => none
      | some b' => some (b', .ok ())

/-- Board::checks_count (src/lib.rs:229-231): sum of the per-queen threat
list lengths, halved. -/
def Board.checks_count (b : Board) : Nat :=
  (b.check_data.map List.length).sum / 2

/-- Board::most_checked (src/lib.rs:183-197): pair each check_data entry
with its index, stable-sort ascending by threat count, and return, of the
last element, the LENGTH of its threat list (v.1.len() in the source).
Rust's stable sort_by is modelled by insertion sort: a stable sort's
result is uniquely determined, so any stable sort is a faithful model. -/
def Board.most_checked (b : Board) : Option Nat :=
  let check_data := b.check_data.enum
  let sorted := check_data.insertionSort (fun a b => a.2.length ≤ b.2.length)
  match sorted.getLast? with
  | some v => some v.2.length
  | none => none

/-- Modelled from the spec: mostConflictedIndex as the spec words it
(spec 4.2) — stable ascending sort by conflict count, take the last
element, and return its INDEX into the piece list.  This is the quantity
Board::most_checked's own doc comment promises; compare with
Board.most_checked, which returns the count instead. -/
def mostConflictedIndexSpec (b : Board) : Option Nat :=
  let check_data := b.check_data.enum
  let sorted := check_data.insertionSort (fun a b => a.2.length ≤ b.2.length)
  match sorted.getLast? with
  | some v => some v.1
  | none => none

/-- MAX_TRIES of Board::init_queens (src/lib.rs:81). -/
def MAX_TRIES : Nat := 100000

/-- The loop of Board::init_queens (src/lib.rs:79-94), with the remaining
iteration budget as first argument.  Each iteration first tests whether
the target count is reached, and only otherwise draws a random point and
attempts a placement (failed placements leave the board unchanged but
consume the draw). -/
def init_queens_go : Nat → Board → Nat → Nat → RandS → Option (Except String Board × RandS)
  | 0, _b, _queens, _placed, s =>
      some (.error "Could not place more queens on the board (is it filled?)", s)
  | fuel + 1, b, queens, placed, s =>
      if placed = queens then some (.ok b, s)
      else
        let (p, s') := Point.random b.n s
        match b.place p with
        | none => none
        | some (b', .ok _) => init_queens_go fuel b' queens (placed + 1) s'
        | some (b', .error _) => init_queens_go fuel b' queens placed s'

/-- Board::init_queens (src/lib.rs:79-94). -/
def Board.init_queens (b : Board) (queens : Nat) (s : RandS) :
    Option (Except String Board × RandS) :=
  init_queens_go MAX_TRIES b queens 0 s

/-- Board::init_n_queens (src/lib.rs:97-100). -/
def Board.init_n_queens (b : Board) (s : RandS) : Option (Except String Board × RandS) :=
  b.init_queens b.n s

/-- Number of successful placements among the first k random draws,
starting from board b and stream s (none if a draw panics).  This is the
reference quantity for the fillRandomly claim. -/
def placedAfter : Nat → Board → RandS → Option Nat
  | 0, _, _ => some 0
  | k + 1, b, s =>
    let (p, s') := Point.random b.n s
    match b.place p with
    | none => none
    | some (b', .ok _) => (placedAfter k b' s').map (· + 1)
    | some (b', .error _) => placedAfter k b' s'

/-- Helper: a placement asserted to succeed (used to exhibit concrete
reachable boards). -/
def placeOk (b : Board) (p : Point) : Option Board :=
  match b.place p with
  | some (b', .ok _) => some b'
  | _ => none

/-- The destination-search loop of Board::move_most_checked
(src/lib.rs:212-217): draw random destinations until mov accepts one.
The Rust loop is unbounded; here the first argument is fuel (taken as one
more than the remaining stream length), and fuel exhaustion is none. -/
def mmc_go (src : Point) : Nat → Board → RandS → Option (Point × Board × RandS)
  | 0, _b, _s => none
  | fuel + 1, b, s =>
    let (dest, s') := Point.random b.n s
    match b.mov src dest with
    | some (b', .ok _) => some (dest, b', s')
    | some (_, .error _) => mmc_go src fuel b s'
    | none => none

/-- Board::move_most_checked (src/lib.rs:206-219).  The index used to
read the source queen is whatever Board::most_checked returns; the expect
on an empty board and a (theoretically impossible) out-of-range index are
modelled as none.  Returns (source, destination, new board, stream). -/
def Board.move_most_checked (b : Board) (s : RandS) :
    Option (Point × Point × Board × RandS) :=
  match b.most_checked with
  | none => none
  | some idx =>
    match b.queens[idx]? with
    | none => none
    | some src =>
      match mmc_go src (s.length + 1) b s with
      | none => none
      | some (dest, b', s') => some (src, dest, b', s')

/-- MAX_ATTEMPTS of ModeCommands::lower_heuristic (src/main.rs:291). -/
def MAX_ATTEMPTS : Nat := 1000000

/-- ModeCommands::lower_heuristic (src/main.rs:290-303), with the
remaining attempt budget as first argument: snapshot the conflict count,
move the most-checked queen, re-measure; strictly worse ⇒ revert (the
unwrap of the reverting mov is none on failure) and retry, else return
Ok(pre, post, from, to).  Budget exhausted ⇒ Err (stuck in local minima).
The board and stream are threaded through as state. -/
def lower_heuristic : Nat → Board → RandS →
    Option (Except String (Nat × Nat × Point × Point) × Board × RandS)
  | 0, b, s => some (.error "Got stuck in a local minima", b, s)
  | fuel + 1, b, s =>
    let pre_h := b.checks_count
    match b.move_most_checked s with
    | none => none
    | some (from_, to_, b1, s1) =>
      let post_h := b1.checks_count
      if pre_h < post_h then
        match b1.mov to_ from_ with
        | some (b2, .ok _) => lower_heuristic fuel b2 s1
        | _ => none
      else some (.ok (pre_h, post_h, from_, to_), b1, s1)

/-- Every attempt within the given budget strictly worsened the conflict
count (and was successfully reverted): the exact condition under which
lower_heuristic exhausts its budget and reports being stuck. -/
def worsens : Nat → Board → RandS → Bool
  | 0, _b, _s => true
  | fuel + 1, b, s =>
    match b.move_most_checked s with
    | none => false
    | some (from_, to_, b1, s1) =>
      if b.checks_count < b1.checks_count then
        match b1.mov to_ from_ with
        | some (b2, .ok _) => worsens fuel b2 s1
        | _ => false
      else false

/-- The configuration of ModeCommands::genetic_solution
(src/main.rs:33-60 and 75-95). -/
structure GAConfig where
  n : Nat
  population : Nat
  parents : Nat
  survivors : Nat
  mutation_chance : Nat
  moves_in_generation : Nat
  generations : Nat
deriving DecidableEq

/-- The child-gene assembly of genetic reproduction (src/main.rs:177-195):
parent i contributes the genes of its own piece list at source indices
i * (n / parents) + j for j below n / parents, the last parent (index
parents - 1) additionally contributing the n mod parents remainder genes.
The queens() accessor of Board used at src/main.rs:191 is not among the
provided sources; modelled from the spec as the piece list of the parent.
Out-of-range reads (never hit, see claim C8) yield dummies instead of the
Rust index panic. -/
def child_genes (parents_vec : List Board) (parents n : Nat) : List Point :=
  let gene_portions := n / parents
  let last_parent_extra_passing := n % parents
  ((List.range parents).map (fun i =>
    let extra_genes := if i = parents - 1 then last_parent_extra_passing else 0
    (List.range (gene_portions + extra_genes)).map (fun j =>
      ((parents_vec.getD i (Board.new 0)).queens.getD (i * gene_portions + j)
        ⟨0, 0⟩)))).flatten

/-- The mutation pass (src/main.rs:200-217): for every gene, draw a
percentage roll and a coordinate (both drawn unconditionally); a roll
below mutation_chance / 2 replaces the row, otherwise a roll below
mutation_chance replaces the column. -/
def mutate_genes (n mutation_chance : Nat) : List Point → RandS → List Point × RandS
  | [], s => ([], s)
  | g :: gs, s =>
    let (chance, s1) := genRange 100 s
    let (mutated_coord, s2) := genRange n s1
    let g' := if chance < mutation_chance / 2 then { g with row := mutated_coord }
              else if chance < mutation_chance then { g with col := mutated_coord }
              else g
    let (rest, s3) := mutate_genes n mutation_chance gs s2
    (g' :: rest, s3)

/-- The parent-picking loop (src/main.rs:166-172): parents-many survivors
drawn independently with replacement. -/
def pick_parents (survivors : Nat) (survivors_vec : List Board) :
    Nat → RandS → List Board × RandS
  | 0, s => ([], s)
  | k + 1, s =>
    let (i, s1) := genRange survivors s
    let picked := survivors_vec.getD i (Board.new 0)
    let (rest, s2) := pick_parents survivors survivors_vec k s1
    (picked :: rest, s2)

/-- The viability check (src/main.rs:218-226): place all genes in order
on a fresh board; some none = a collision discards the child, outer none
= a panic inside place. -/
def place_all : Board → List Point → Option (Option Board)
  | b, [] => some (some b)
  | b, g :: gs =>
    match b.place g with
    | none => none
    | some (_, .error _) => some none
    | some (b', .ok _) => place_all b' gs

/-- The child-production loop (src/main.rs:163-230), iterated
population / parents times; healthy children are appended in production
order.  none = a panic. -/
def reproduce (cfg : GAConfig) (survivors_vec : List Board) :
    Nat → RandS → List Board → Option (List Board × RandS)
  | 0, s, env => some (env, s)
  | k + 1, s, env =>
    let (parents_vec, s1) := pick_parents cfg.survivors survivors_vec cfg.parents s
    let genes := child_genes parents_vec cfg.parents cfg.n
    let (genes2, s2) := mutate_genes cfg.n cfg.mutation_chance genes s1
    match place_all (Board.new cfg.n) genes2 with
    | none => none
    | some none => reproduce cfg survivors_vec k s2 env
    | some (some child) => reproduce cfg survivors_vec k s2 (env ++ [child])

/-- The refinement of one individual (src/main.rs:131-135): apply
lower_heuristic moves_in_generation times, ignoring its Result (but a
panic or divergence aborts the run). -/
def refine_board : Nat → Board → RandS → Option (Board × RandS)
  | 0, b, s => some (b, s)
  | m + 1, b, s =>
    match lower_heuristic MAX_ATTEMPTS b s with
    | none => none
    | some (_, b', s') => refine_board m b' s'

/-- Refinement of the whole environment, in order. -/
def refine_env (moves : Nat) : List Board → RandS → Option (List Board × RandS)
  | [], s => some ([], s)
  | b :: rest, s =>
    match refine_board moves b s with
    | none => none
    | some (b', s') =>
      match refine_env moves rest s' with
      | none => none
      | some (rest', s'') => some (b' :: rest', s'')

/-- The fitness sort (src/main.rs:138): stable ascending by total
conflict count (Rust's stable sort_by modelled by insertion sort, whose
result coincides with any stable sort's). -/
def sortByChecks (env : List Board) : List Board :=
  env.insertionSort (fun a b => a.checks_count ≤ b.checks_count)

/-- The terminal outcomes of a genetic run. -/
inductive GAOutcome where
  /-- break 'time with a zero-conflict survivor (src/main.rs:155-159). -/
  | solved : GAOutcome
  /-- panic "Everybody died!" at the selection step of the generation
  carrying the given index (src/main.rs:146-148). -/
  | collapsed : Nat → GAOutcome
  /-- the generation budget ran out without a solution. -/
  | exhausted : GAOutcome
  /-- some other panic, or divergence beyond the random stream. -/
  | diverged : GAOutcome
deriving DecidableEq

/-- The generation loop of ModeCommands::genetic_solution
(src/main.rs:126-231): refine every board, sort by fitness, panic if the
population dropped below the survivor quota, take the survivors, stop if
the fittest has zero conflicts, otherwise rebuild the environment from
the reproduction loop.  First argument: remaining generations; second:
the index of the current generation. -/
def ga_loop (cfg : GAConfig) : Nat → Nat → List Board → RandS → GAOutcome
  | 0, _g, _env, _s => .exhausted
  | fuel + 1, g, env, s =>
    match refine_env cfg.moves_in_generation env s with
    | none => .diverged
    | some (env1, s1) =>
      let sorted := sortByChecks env1
      if sorted.length < cfg.survivors then .collapsed g
      else
        let survivors_vec := sorted.take cfg.survivors
        match (survivors_vec.map Board.checks_count).head? with
        | none => .diverged
        | some h0 =>
          if h0 = 0 then .solved
          else
            match reproduce cfg survivors_vec (cfg.population / cfg.parents) s1 [] with
            | none => .diverged
            | some (env2, s2) => ga_loop cfg fuel (g + 1) env2 s2

/-- The initial population (src/main.rs:106-109): population boards, each
filled by init_n_queens whose failure is unwrapped (none = panic). -/
def init_env (n : Nat) : Nat → RandS → Option (List Board × RandS)
  | 0, s => some ([], s)
  | k + 1, s =>
    match (Board.new n).init_n_queens s with
    | none => none
    | some (.error _, _) => none
    | some (.ok b, s') =>
      match init_env n k s' with
      | none => none
      | some (env, s'') => some (b :: env, s'')

/-- ModeCommands::genetic_solution (src/main.rs:73-232): assert
parents < n (failure = panic), build the initial population, run the
generation loop. -/
def genetic_solution (cfg : GAConfig) (s : RandS) : GAOutcome :=
  if cfg.parents < cfg.n then
    match init_env cfg.n cfg.population s with
    | none => .diverged
    | some (env, s') => ga_loop cfg cfg.generations 0 env s'
  else .diverged

/-- Both coordinates of a point fit in an i32 (the domain on which the
conversion of Board::checking cannot panic). -/
def BoundedPt (p : Point) : Prop := p.row ≤ I32_MAX ∧ p.col ≤ I32_MAX

instance (p : Point) : Decidable (BoundedPt p) := by
  unfold BoundedPt; infer_instance

/-- Every queen of the board fits in an i32. -/
def Board.Bounded (b : Board) : Prop := ∀ q ∈ b.queens, BoundedPt q

instance (b : Board) : Decidable (b.Bounded) := by
  unfold Board.Bounded; infer_instance

/-- The board is in the state update_check_data leaves behind: the cached
conflict table and max-conflict bound are the derived values of the queen
list (spec section 3's invariant on BoardStates). -/
def Board.Wf (b : Board) : Prop :=
  b.check_data = computeCheckData b.queens ∧
  b.max_checks = b.queens.length * (b.queens.length - 1) / 2

instance (b : Board) : Decidable (b.Wf) := by
  unfold Board.Wf; infer_instance

/-- Boards reachable through the public operations of the library (new,
place, capture, mov, init_queens), successful or failed alike. -/
inductive Reachable : Board → Prop
  | new (n : Nat) : Reachable (Board.new n)
  | place (b : Board) (p : Point) (b' : Board) (e : Except String Unit) :
      Reachable b → b.place p = some (b', e) → Reachable b'
  | capture (b : Board) (p : Point) (b' : Board) :
      Reachable b → b.capture p = some b' → Reachable b'
  | mov (b : Board) (f t : Point) (b' : Board) (e : Except String Unit) :
      Reachable b → b.mov f t = some (b', e) → Reachable b'
  | init (b : Board) (c : Nat) (s : RandS) (b' : Board) (s' : RandS) :
      Reachable b → b.init_queens c s = some (.ok b', s') → Reachable b'

/-- The board of a single queen at the origin on a 4-board (the state
place leaves behind from Board::new 4). -/
def board1 : Board :=
  { queens := [⟨0, 0⟩], n := 4, check_data := [[]], max_checks := 0 }

/-- Two queens sharing row 0 on a 4-board. -/
def board2 : Board :=
  { queens := [⟨0, 0⟩, ⟨0, 1⟩], n := 4,
    check_data := [[⟨0, 1⟩], [⟨0, 0⟩]], max_checks := 1 }

/-- Queens at (0,0), (0,2), (1,0) on a 4-board: conflict counts [2,1,1],
so the unique most-conflicted piece has index 0. -/
def bBug : Board :=
  { queens := [⟨0, 0⟩, ⟨0, 2⟩, ⟨1, 0⟩], n := 4,
    check_data := [[⟨0, 2⟩, ⟨1, 0⟩], [⟨0, 0⟩], [⟨0, 0⟩]], max_checks := 3 }

/-- A board whose piece list is eight queens down column 0 of an 8-board
(only the piece list matters to gene assembly). -/
def board8 : Board :=
  { queens := [⟨0, 0⟩, ⟨1, 0⟩, ⟨2, 0⟩, ⟨3, 0⟩, ⟨4, 0⟩, ⟨5, 0⟩, ⟨6, 0⟩, ⟨7, 0⟩],
    n := 8, check_data := [], max_checks := 0 }

/-- The board reached from board2 by the accepted move of the witness
run: the queen at (0,1) relocated to (1,2). -/
def board2moved : Board :=
  { queens := [⟨0, 0⟩, ⟨1, 2⟩], n := 4, check_data := [[], []], max_checks := 1 }

/-- A genetic configuration with initial population 4 at least the
survivor quota 2, parents = 5 valid (below n = 6), no refinement moves,
two generations. -/
def cfgC2 : GAConfig :=
  { n := 6, population := 4, parents := 5, survivors := 2,
    mutation_chance := 5, moves_in_generation := 0, generations := 2 }

/-- A random stream filling each of the four initial boards with the six
queens (0,0) ... (5,0) of column 0 (heavily conflicted, so the run does
not stop on a solved board). -/
def s0C2 : RandS :=
  [0, 0, 1, 0, 2, 0, 3, 0, 4, 0, 5, 0,
   0, 0, 1, 0, 2, 0, 3, 0, 4, 0, 5, 0,
   0, 0, 1, 0, 2, 0, 3, 0, 4, 0, 5, 0,
   0, 0, 1, 0, 2, 0, 3, 0, 4, 0, 5, 0]

/-- A degenerate configuration for the first-generation witness. -/
def cfgFirstGen : GAConfig :=
  { n := 5, population := 0, parents := 2, survivors := 0,
    mutation_chance := 0, moves_in_generation := 0, generations := 1 }

/-!
Theorems.  Supporting lemmas first, then for each claim its theorem
(and where applicable counterexample and witness).
-/

/-- Wherever Board::checking returns (does not panic), it agrees with
checkingTotal. -/
theorem checking_eq_total (p q : Point) (c : Bool)
    (h : Board.checking p q = some c) : checkingTotal p q = c := by
  unfold Board.checking Point.tryIntoI32 at h
  unfold checkingTotal
  by_cases hpq : p = q
  · rw [if_pos hpq] at h
    rw [if_pos hpq]
    exact Option.some.inj h
  · rw [if_neg hpq] at h
    rw [if_neg hpq]
    by_cases h1 : p.row ≤ I32_MAX ∧ p.col ≤ I32_MAX
    · rw [if_pos h1] at h
      by_cases h2 : q.row ≤ I32_MAX ∧ q.col ≤ I32_MAX
      · rw [if_pos h2] at h
        exact Option.some.inj h
      · rw [if_neg h2] at h
        exact Option.noConfusion h
    · rw [if_neg h1] at h
      exact Option.noConfusion h

/-- Board::checking never panics when all four coordinates fit an i32. -/
theorem checking_total_of_bounded (p q : Point)
    (hp : p.row ≤ I32_MAX ∧ p.col ≤ I32_MAX)
    (hq : q.row ≤ I32_MAX ∧ q.col ≤ I32_MAX) :
    Board.checking p q = some (checkingTotal p q) := by
  unfold Board.checking checkingTotal Point.tryIntoI32
  by_cases hpq : p = q
  · simp [hpq]
  · simp [hpq, hp, hq]

/-- When the inner conflict loop returns, its result is the filter of the
queen list by the total predicate. -/
theorem threatsOf_eq (q : Point) (l : List Point) (t : List Point)
    (h : threatsOf q l = some t) : t = l.filter (fun r => checkingTotal q r) := by
  induction l generalizing t with
  | nil =>
    unfold threatsOf at h
    simp at h
    subst h
    simp
  | cons r rest ih =>
    unfold threatsOf at h
    cases hc : Board.checking q r with
    | none => rw [hc] at h; exact absurd h (by simp)
    | some c =>
      rw [hc] at h
      cases ht : threatsOf q rest with
      | none => rw [ht] at h; exact absurd h (by simp)
      | some t' =>
        rw [ht] at h
        simp at h
        have hct := checking_eq_total q r c hc
        have hrest := ih t' ht
        rw [← h, hrest, List.filter_cons]
        cases c with
        | true => simp [hct]
        | false => simp [hct]

/-- The inner conflict loop cannot panic over bounded points. -/
theorem threatsOf_of_bounded (q : Point) (l : List Point)
    (hq : BoundedPt q) (hl : ∀ r ∈ l, BoundedPt r) :
    threatsOf q l = some (l.filter (fun r => checkingTotal q r)) := by
  induction l with
  | nil => simp [threatsOf]
  | cons r rest ih =>
    have hr : BoundedPt r := hl r (by simp)
    have hrest : ∀ x ∈ rest, BoundedPt x := fun x hx => hl x (by simp [hx])
    unfold threatsOf
    rw [checking_total_of_bounded q r hq hr, ih hrest, List.filter_cons]

/-- When the nested conflict loops return, their result is
computeCheckData of the scanned sublist. -/
theorem check_data_of_go_eq (qs : List Point) (l : List Point)
    (v : List (List Point)) (h : check_data_of.go qs l = some v) :
    v = l.map (fun q => qs.filter (fun r => checkingTotal q r)) := by
  induction l generalizing v with
  | nil =>
    unfold check_data_of.go at h
    simp at h
    simp [h.symm]
  | cons q rest ih =>
    unfold check_data_of.go at h
    cases ht : threatsOf q qs with
    | none => rw [ht] at h; exact absurd h (by simp)
    | some t =>
      rw [ht] at h
      cases hg : check_data_of.go qs rest with
      | none => rw [hg] at h; exact absurd h (by simp)
      | some v' =>
        rw [hg] at h
        simp at h
        rw [← h, List.map_cons, threatsOf_eq q qs t ht, ih v' hg]

/-- When Board::update_check_data's recomputation returns, it returns
computeCheckData. -/
theorem check_data_of_eq (qs : List Point) (v : List (List Point))
    (h : check_data_of qs = some v) : v = computeCheckData qs :=
  check_data_of_go_eq qs qs v h

/-- The recomputation cannot panic over bounded points. -/
theorem check_data_of_of_bounded (qs : List Point)
    (hqs : ∀ q ∈ qs, BoundedPt q) :
    check_data_of qs = some (computeCheckData qs) := by
  unfold check_data_of computeCheckData
  have : ∀ l : List Point, (∀ q ∈ l, BoundedPt q) →
      check_data_of.go qs l = some (l.map (fun q => qs.filter (fun r => checkingTotal q r))) := by
    intro l hl
    induction l with
    | nil => simp [check_data_of.go]
    | cons q rest ih =>
      have hq : BoundedPt q := hl q (by simp)
      unfold check_data_of.go
      rw [threatsOf_of_bounded q qs hq hqs, ih (fun x hx => hl x (by simp [hx]))]
      simp
  exact this qs hqs

/-- A successful update_check_data yields exactly the derived fields. -/
theorem update_check_data_eq (b b' : Board)
    (h : b.update_check_data = some b') :
    b' = { b with check_data := computeCheckData b.queens,
                  max_checks := b.queens.length * (b.queens.length - 1) / 2 } := by
  unfold Board.update_check_data at h
  cases hc : check_data_of b.queens with
  | none => rw [hc] at h; exact absurd h (by simp)
  | some v =>
    rw [hc] at h
    simp at h
    rw [← h, check_data_of_eq b.queens v hc]

/-- update_check_data cannot panic on a bounded queen list. -/
theorem update_check_data_of_bounded (b : Board) (hb : ∀ q ∈ b.queens, BoundedPt q) :
    b.update_check_data = some { b with
      check_data := computeCheckData b.queens,
      max_checks := b.queens.length * (b.queens.length - 1) / 2 } := by
  unfold Board.update_check_data
  rw [check_data_of_of_bounded b.queens hb]

/-- A successful update_check_data establishes the derived-field
invariant. -/
theorem update_check_data_wf (b b' : Board)
    (h : b.update_check_data = some b') : b'.Wf := by
  rw [update_check_data_eq b b' h]
  exact ⟨rfl, rfl⟩

/-- A successful or failed place leaves a well-formed board well-formed
(failure leaves the state untouched; success recomputes the caches). -/
theorem place_wf (b : Board) (p : Point) (b' : Board) (e : Except String Unit)
    (hwf : b.Wf) (h : b.place p = some (b', e)) : b'.Wf := by
  unfold Board.place at h
  by_cases hm : p ∈ b.queens
  · rw [if_pos hm] at h
    simp at h
    rw [← h.1]
    exact hwf
  · rw [if_neg hm] at h
    cases hu : Board.update_check_data { b with queens := b.queens ++ [p] } with
    | none => rw [hu] at h; exact absurd h (by simp)
    | some bu =>
      rw [hu] at h
      simp at h
      rw [← h.1]
      exact update_check_data_wf _ _ hu

/-- A successful capture leaves the board well-formed. -/
theorem capture_wf (b : Board) (p : Point) (b' : Board)
    (h : b.capture p = some b') : b'.Wf := by
  unfold Board.capture at h
  cases hi : b.index_of p with
  | none => rw [hi] at h; exact absurd h (by simp)
  | some i =>
    rw [hi] at h
    exact update_check_data_wf _ _ h

/-- A successful or failed mov leaves a well-formed board well-formed. -/
theorem mov_wf (b : Board) (f t : Point) (b' : Board) (e : Except String Unit)
    (hwf : b.Wf) (h : b.mov f t = some (b', e)) : b'.Wf := by
  unfold Board.mov at h
  by_cases hm : t ∈ b.queens
  · rw [if_pos hm] at h
    simp at h
    rw [← h.1]
    exact hwf
  · rw [if_neg hm] at h
    simp only [] at h
    cases hi : (b.queens ++ [t]).findIdx? (fun p => decide (p = f)) with
    | none => rw [hi] at h; exact absurd h (by simp)
    | some i =>
      rw [hi] at h
      simp only [] at h
      cases hu : Board.update_check_data { b with queens := (b.queens ++ [t]).eraseIdx i } with
      | none => rw [hu] at h; exact absurd h (by simp)
      | some bu =>
        rw [hu] at h
        simp at h
        rw [← h.1]
        exact update_check_data_wf _ _ hu

/-- The init_queens loop preserves well-formedness through to its
successful result. -/
theorem init_go_wf (fuel : Nat) (b : Board) (c p : Nat) (s : RandS)
    (b' : Board) (s' : RandS) (hwf : b.Wf)
    (h : init_queens_go fuel b c p s = some (.ok b', s')) : b'.Wf := by
  induction fuel generalizing b p s with
  | zero =>
    unfold init_queens_go at h
    simp at h
  | succ fuel ih =>
    unfold init_queens_go at h
    by_cases hpc : p = c
    · rw [if_pos hpc] at h
      simp at h
      rw [← h.1]
      exact hwf
    · rw [if_neg hpc] at h
      rcases hr : Point.random b.n s with ⟨pp, ss⟩
      rw [hr] at h
      simp only at h
      cases hp : b.place pp with
      | none => rw [hp] at h; exact absurd h (by simp)
      | some be =>
        obtain ⟨bb, e⟩ := be
        rw [hp] at h
        cases e with
        | ok u => exact ih bb (p + 1) ss (place_wf b pp bb _ hwf hp) h
        | error msg => exact ih bb p ss (place_wf b pp bb _ hwf hp) h

/-- Every reachable board carries derived caches. -/
theorem reachable_wf (b : Board) (h : Reachable b) : b.Wf := by
  induction h with
  | new n => exact ⟨rfl, by simp [Board.new]⟩
  | place b p b' e _ hp ih => exact place_wf b p b' e ih hp
  | capture b p b' _ hc ih => exact capture_wf b p b' hc
  | mov b f t b' e _ hm ih => exact mov_wf b f t b' e ih hm
  | init b c s b' s' _ hi ih => exact init_go_wf MAX_TRIES b c 0 s b' s' ih hi

/-- Each queen's threat list omits itself, so it has at most
length - 1 entries; summing over all queens bounds the doubled conflict
count by the number of ordered pairs. -/
theorem computeCheckData_sum_le (qs : List Point) :
    ((computeCheckData qs).map List.length).sum ≤ qs.length * (qs.length - 1) := by
  unfold computeCheckData
  rw [List.map_map]
  have hle := List.sum_le_card_nsmul
    (qs.map (List.length ∘ fun q => qs.filter (fun r => checkingTotal q r)))
    (qs.length - 1) ?_
  · rw [List.length_map, smul_eq_mul] at hle
    exact hle
  · intro x hx
    rw [List.mem_map] at hx
    obtain ⟨q, hq, rfl⟩ := hx
    have hlt : (qs.filter (fun r => checkingTotal q r)).length < qs.length := by
      rw [List.length_filter_lt_length_iff_exists]
      exact ⟨q, hq, by simp [checkingTotal]⟩
    simp only [Function.comp]
    omega

/-- The first index of p in qs ++ [p] is qs.length when p is absent from
qs (the situation after a successful place of p). -/
theorem findIdx_append_self (qs : List Point) (p : Point) (hp : p ∉ qs) :
    (qs ++ [p]).findIdx? (fun q => decide (q = p)) = some qs.length := by
  rw [List.findIdx?_append]
  have h1 : qs.findIdx? (fun q => decide (q = p)) = none := by
    rw [List.findIdx?_eq_none_iff]
    intro x hx
    simp
    intro hxp
    exact absurd (hxp ▸ hx) hp
  have h2 : ([p].findIdx? (fun q => decide (q = p))) = some 0 := by
    simp [List.findIdx?]
  rw [h1, h2]
  simp

/-- Erasing the appended last element restores the original list. -/
theorem eraseIdx_append_self (qs : List Point) (p : Point) :
    (qs ++ [p]).eraseIdx qs.length = qs := by
  induction qs with
  | nil => simp [List.eraseIdx]
  | cons a rest ih => simp [List.eraseIdx, ih]

/-- C5 (place/remove round trip): on a well-formed board whose
coordinates fit an i32 (so no conversion panic interferes), a successful
place of an absent position followed by capture of the same position
restores the piece sequence, conflict table and max-conflict bound
exactly. -/
theorem place_capture_roundtrip (b : Board) (p : Point)
    (hwf : b.Wf) (hb : b.Bounded) (hp : BoundedPt p) (hmem : p ∉ b.queens) :
    ∃ b', b.place p = some (b', .ok ()) ∧ b'.capture p = some b := by
  obtain ⟨qs, n, cd, mc⟩ := b
  obtain ⟨hcd, hmc⟩ := hwf
  simp only [] at hcd hmc hmem hb ⊢
  have hall : ∀ q ∈ qs ++ [p], BoundedPt q := by
    intro q hq
    rcases List.mem_append.mp hq with h | h
    · exact hb q h
    · simp at h
      rw [h]
      exact hp
  refine ⟨{ queens := qs ++ [p], n := n,
            check_data := computeCheckData (qs ++ [p]),
            max_checks := (qs ++ [p]).length * ((qs ++ [p]).length - 1) / 2 }, ?_, ?_⟩
  · unfold Board.place
    rw [if_neg hmem]
    rw [update_check_data_of_bounded _ hall]
  · unfold Board.capture Board.index_of
    simp only []
    rw [findIdx_append_self qs p hmem]
    simp only []
    rw [show (qs ++ [p]).eraseIdx qs.length = qs from eraseIdx_append_self qs p]
    have hqs : ∀ q ∈ qs, BoundedPt q := hb
    rw [update_check_data_of_bounded
      { queens := qs, n := n, check_data := computeCheckData (qs ++ [p]),
        max_checks := (qs ++ [p]).length * ((qs ++ [p]).length - 1) / 2 } hqs]
    rw [hcd, hmc]

/-- Witness for C5 at a concrete input. -/
theorem place_capture_roundtrip_witness :
    ∃ b', board1.place ⟨2, 2⟩ = some (b', .ok ()) ∧ b'.capture ⟨2, 2⟩ = some board1 :=
  place_capture_roundtrip board1 ⟨2, 2⟩ (by decide) (by decide) (by decide) (by decide)

/-- C6: mov fails with the already-occupied error whenever the
destination is occupied, and in particular the self-relocation of an
occupied p fails the same way; the board is returned untouched. -/
theorem mov_occupied_fails (b : Board) (from_ to_ : Point)
    (h : to_ ∈ b.queens) :
    b.mov from_ to_ = some (b, .error ALREADY_FILLED) ∧
    b.mov to_ to_ = some (b, .error ALREADY_FILLED) := by
  constructor
  · unfold Board.mov
    rw [if_pos h]
  · unfold Board.mov
    rw [if_pos h]

/-- Witness for C6 at a concrete input. -/
theorem mov_occupied_fails_witness :
    board1.mov ⟨1, 1⟩ ⟨0, 0⟩ = some (board1, .error ALREADY_FILLED) ∧
    board1.mov ⟨0, 0⟩ ⟨0, 0⟩ = some (board1, .error ALREADY_FILLED) :=
  mov_occupied_fails board1 ⟨1, 1⟩ ⟨0, 0⟩ (by decide)

/-- C7: on every board reachable through the public operations, the
total conflict count is the halved sum of the conflict-table entry
counts and never exceeds the complete-graph bound max_checks. -/
theorem checks_count_invariant (b : Board) (h : Reachable b) :
    b.checks_count = (b.check_data.map List.length).sum / 2 ∧
    b.checks_count ≤ b.max_checks := by
  have hwf := reachable_wf b h
  refine ⟨rfl, ?_⟩
  unfold Board.checks_count
  rw [hwf.1, hwf.2]
  exact Nat.div_le_div_right (computeCheckData_sum_le b.queens)

/-- Witness for C7: a two-queen board reached by two places from new. -/
theorem checks_count_invariant_witness :
    board2.checks_count = (board2.check_data.map List.length).sum / 2 ∧
    board2.checks_count ≤ board2.max_checks :=
  checks_count_invariant board2
    (Reachable.place board1 ⟨0, 1⟩ board2 (.ok ())
      (Reachable.place (Board.new 4) ⟨0, 0⟩ board1 (.ok ())
        (Reachable.new 4) (by decide))
      (by decide))

/-- C9: when place or mov reports the already-occupied error, the board
state returned alongside is exactly the prior one (error atomicity). -/
theorem place_mov_error_atomic :
    (∀ (b : Board) (p : Point) (b' : Board) (e : String),
        b.place p = some (b', .error e) → b' = b ∧ e = ALREADY_FILLED) ∧
    (∀ (b : Board) (f t : Point) (b' : Board) (e : String),
        b.mov f t = some (b', .error e) → b' = b ∧ e = ALREADY_FILLED) := by
  constructor
  · intro b p b' e h
    unfold Board.place at h
    by_cases hm : p ∈ b.queens
    · rw [if_pos hm] at h
      simp at h
      exact ⟨h.1.symm, h.2.symm⟩
    · rw [if_neg hm] at h
      cases hu : Board.update_check_data { b with queens := b.queens ++ [p] } with
      | none => rw [hu] at h; exact absurd h (by simp)
      | some bu => rw [hu] at h; simp at h
  · intro b f t b' e h
    unfold Board.mov at h
    by_cases hm : t ∈ b.queens
    · rw [if_pos hm] at h
      simp at h
      exact ⟨h.1.symm, h.2.symm⟩
    · rw [if_neg hm] at h
      simp only [] at h
      cases hi : (b.queens ++ [t]).findIdx? (fun p => decide (p = f)) with
      | none => rw [hi] at h; exact absurd h (by simp)
      | some i =>
        rw [hi] at h
        simp only [] at h
        cases hu : Board.update_check_data { b with queens := (b.queens ++ [t]).eraseIdx i } with
        | none => rw [hu] at h; exact absurd h (by simp)
        | some bu => rw [hu] at h; simp at h

/-- Witness for C9 at concrete occupied placements. -/
theorem place_mov_error_atomic_witness :
    (board1 = board1 ∧ ALREADY_FILLED = ALREADY_FILLED) ∧
    (board1 = board1 ∧ ALREADY_FILLED = ALREADY_FILLED) :=
  ⟨place_mov_error_atomic.1 board1 ⟨0, 0⟩ board1 ALREADY_FILLED (by decide),
   place_mov_error_atomic.2 board1 ⟨2, 2⟩ ⟨0, 0⟩ board1 ALREADY_FILLED (by decide)⟩

/-- C10 counterexample: a pair of EQUAL points with a coordinate above
i32::MAX does not panic — equality short-circuits before the conversion —
refuting that checking panics whenever a coordinate exceeds i32::MAX. -/
theorem checking_equal_huge_no_panic :
    Board.checking ⟨2147483648, 0⟩ ⟨2147483648, 0⟩ = some false ∧
    I32_MAX < 2147483648 := by
  constructor
  · rfl
  · decide

/-- C10 amended: checking is total on pairs whose coordinates all fit an
i32; it returns false without converting on equal points regardless of
size; and it panics exactly on DISTINCT points with some coordinate above
i32::MAX. -/
theorem checking_panic_characterization (q1 q2 : Point) :
    (BoundedPt q1 ∧ BoundedPt q2 → (Board.checking q1 q2).isSome = true) ∧
    (q1 = q2 → Board.checking q1 q2 = some false) ∧
    (q1 ≠ q2 ∧ ¬(BoundedPt q1 ∧ BoundedPt q2) → Board.checking q1 q2 = none) := by
  refine ⟨?_, ?_, ?_⟩
  · rintro ⟨h1, h2⟩
    rw [checking_total_of_bounded q1 q2 h1 h2]
    rfl
  · intro h
    unfold Board.checking
    rw [if_pos h]
  · rintro ⟨hne, hnb⟩
    unfold Board.checking Point.tryIntoI32
    rw [if_neg hne]
    by_cases h1 : q1.row ≤ I32_MAX ∧ q1.col ≤ I32_MAX
    · have h2 : ¬(q2.row ≤ I32_MAX ∧ q2.col ≤ I32_MAX) := by
        intro h2
        exact hnb ⟨h1, h2⟩
      rw [if_pos h1, if_neg h2]
    · rw [if_neg h1]

/-- Witness for C10 amended, exercising all three branches concretely. -/
theorem checking_panic_characterization_witness :
    (Board.checking ⟨0, 0⟩ ⟨0, 1⟩).isSome = true ∧
    Board.checking ⟨3, 3⟩ ⟨3, 3⟩ = some false ∧
    Board.checking ⟨2147483648, 0⟩ ⟨0, 0⟩ = none :=
  ⟨(checking_panic_characterization ⟨0, 0⟩ ⟨0, 1⟩).1 (by decide),
   (checking_panic_characterization ⟨3, 3⟩ ⟨3, 3⟩).2.1 rfl,
   (checking_panic_characterization ⟨2147483648, 0⟩ ⟨0, 0⟩).2.2 (by decide)⟩

/-- C1: Board::most_checked returns the threat COUNT of the last element
of the stable ascending sort (v.1.len() at src/lib.rs:194), not its
original index, contradicting its own doc comment and the spec.  On the
board reached by placing (0,0), (0,2), (1,0) — conflict counts [2,1,1] —
it returns 2 while the most-conflicted piece sits at index 0, so
Board::move_most_checked relocates queens[2] = (1,0) instead of the most
threatened queen (0,0). -/
theorem most_checked_returns_count_not_index :
    ((placeOk (Board.new 4) ⟨0, 0⟩).bind (fun b => placeOk b ⟨0, 2⟩)).bind
        (fun b => placeOk b ⟨1, 0⟩) = some bBug ∧
    bBug.check_data.map List.length = [2, 1, 1] ∧
    bBug.most_checked = some 2 ∧
    mostConflictedIndexSpec bBug = some 0 ∧
    bBug.queens[2]? = some ⟨1, 0⟩ := by
  refine ⟨by decide, by decide, by decide, by decide, by decide⟩

/-- Sum of a constant map over a range. -/
theorem sum_map_const_range (k c : Nat) :
    ((List.range k).map (fun _ => c)).sum = k * c := by
  induction k with
  | zero => simp
  | succ k ih =>
    rw [List.range_succ, List.map_append, List.sum_append, ih]
    simp [Nat.succ_mul]

/-- C8: for every configuration of the child-gene assembly with at least
one parent and parents < n, the assembled child has exactly n genes, and
every source index read from a parent piece list is below n (hence in
bounds for parents holding n pieces each). -/
theorem child_genes_spec (parents_vec : List Board) (parents n : Nat)
    (h1 : 0 < parents) (h2 : parents < n) :
    (child_genes parents_vec parents n).length = n ∧
    (∀ i < parents,
      ∀ j < n / parents + (if i = parents - 1 then n % parents else 0),
        i * (n / parents) + j < n) := by
  obtain ⟨k, rfl⟩ : ∃ k, parents = k + 1 := ⟨parents - 1, by omega⟩
  have hdm := Nat.div_add_mod n (k + 1)
  constructor
  · unfold child_genes
    rw [List.length_flatten, List.map_map]
    simp only [Function.comp_def, List.length_map, List.length_range]
    rw [List.range_succ, List.map_append, List.sum_append]
    have hmap : (List.range k).map
          (fun i => n / (k + 1) + if i = k + 1 - 1 then n % (k + 1) else 0)
        = (List.range k).map (fun _ => n / (k + 1)) := by
      apply List.map_congr_left
      intro a ha
      have halt : a < k := List.mem_range.mp ha
      have hak : ¬(a = k) := by omega
      simp [Nat.add_sub_cancel, hak]
    rw [hmap, sum_map_const_range]
    simp only [List.map_cons, List.map_nil, List.sum_cons, List.sum_nil,
      Nat.add_sub_cancel, if_pos rfl]
    conv_rhs => rw [← hdm]
    ring_nf
    simp
  · intro i hi j hj
    by_cases hik : i = k + 1 - 1
    · rw [if_pos hik] at hj
      have hik3 : i = k := by omega
      calc i * (n / (k + 1)) + j
          < i * (n / (k + 1)) + (n / (k + 1) + n % (k + 1)) := by omega
        _ = (i + 1) * (n / (k + 1)) + n % (k + 1) := by ring
        _ ≤ (k + 1) * (n / (k + 1)) + n % (k + 1) :=
            Nat.add_le_add_right (Nat.mul_le_mul_right _ (by omega)) _
        _ = n := hdm
    · rw [if_neg hik] at hj
      have hik2 : i < k := by omega
      have hstep : (i + 1) * (n / (k + 1)) = i * (n / (k + 1)) + n / (k + 1) := by
        ring
      calc i * (n / (k + 1)) + j
          < (i + 1) * (n / (k + 1)) := by rw [hstep]; omega
        _ ≤ (k + 1) * (n / (k + 1)) := Nat.mul_le_mul_right _ (by omega)
        _ ≤ n := by omega

/-- Witness for C8: the spec's own example n = 8, parentsPerChild = 2. -/
theorem child_genes_spec_witness :
    (child_genes [board8, board8] 2 8).length = 8 :=
  (child_genes_spec [board8, board8] 2 8 (by decide) (by decide)).1

/-- The init_queens loop succeeds from a given progress level iff,
within strictly fewer draws than the remaining budget, the simulated
draw sequence accumulates exactly the missing number of placements. -/
theorem init_go_ok_iff (count : Nat) :
    ∀ (fuel placed : Nat) (b : Board) (s : RandS), placed ≤ count →
    ((∃ b' s', init_queens_go fuel b count placed s = some (.ok b', s')) ↔
     (∃ k, k < fuel ∧ ∃ m, placedAfter k b s = some m ∧ placed + m = count)) := by
  intro fuel
  induction fuel with
  | zero =>
    intro placed b s hpc
    constructor
    · rintro ⟨b', s', h⟩
      unfold init_queens_go at h
      exact absurd h (by simp)
    · rintro ⟨k, hk, _⟩
      omega
  | succ fuel ih =>
    intro placed b s hpc
    by_cases heq : placed = count
    · constructor
      · intro _
        exact ⟨0, by omega, 0, by simp [placedAfter], by omega⟩
      · intro _
        refine ⟨b, s, ?_⟩
        unfold init_queens_go
        rw [if_pos heq]
    · rcases hr : Point.random b.n s with ⟨pp, ss⟩
      constructor
      · rintro ⟨b', s', h⟩
        unfold init_queens_go at h
        rw [if_neg heq, hr] at h
        simp only [] at h
        cases hp : b.place pp with
        | none => rw [hp] at h; exact absurd h (by simp)
        | some be =>
          obtain ⟨bb, e⟩ := be
          rw [hp] at h
          cases e with
          | ok u =>
            obtain ⟨k, hk, m, hm, hsum⟩ :=
              (ih (placed + 1) bb ss (by omega)).mp ⟨b', s', h⟩
            refine ⟨k + 1, by omega, m + 1, ?_, by omega⟩
            unfold placedAfter
            rw [hr]
            simp only []
            rw [hp]
            simp [hm]
          | error msg =>
            obtain ⟨k, hk, m, hm, hsum⟩ :=
              (ih placed bb ss (by omega)).mp ⟨b', s', h⟩
            refine ⟨k + 1, by omega, m, ?_, by omega⟩
            unfold placedAfter
            rw [hr]
            simp only []
            rw [hp]
            exact hm
      · rintro ⟨k, hk, m, hm, hsum⟩
        cases k with
        | zero =>
          unfold placedAfter at hm
          simp at hm
          omega
        | succ k =>
          unfold placedAfter at hm
          rw [hr] at hm
          simp only [] at hm
          cases hp : b.place pp with
          | none => rw [hp] at hm; exact absurd hm (by simp)
          | some be =>
            obtain ⟨bb, e⟩ := be
            rw [hp] at hm
            cases e with
            | ok u =>
              rw [Option.map_eq_some'] at hm
              obtain ⟨m', hm', hmm⟩ := hm
              obtain ⟨b', s', h⟩ :=
                (ih (placed + 1) bb ss (by omega)).mpr ⟨k, by omega, m', hm', by omega⟩
              refine ⟨b', s', ?_⟩
              unfold init_queens_go
              rw [if_neg heq, hr]
              simp only []
              rw [hp]
              exact h
            | error msg =>
              obtain ⟨b', s', h⟩ :=
                (ih placed bb ss (by omega)).mpr ⟨k, by omega, m, hm, hsum⟩
              refine ⟨b', s', ?_⟩
              unfold init_queens_go
              rw [if_neg heq, hr]
              simp only []
              rw [hp]
              exact h

/-- C3 counterexample: with budget maxAttempts = 2 and count = 2, the
two draws (0,0) then (1,0) both place successfully — count is reached
within the budget — yet init_queens fails, because the success test
occupies the first slot of each loop iteration: a run whose count-th
placement lands on the very last draw never reaches another test. -/
theorem init_queens_boundary_cex :
    init_queens_go 2 (Board.new 4) 2 0 [0, 0, 1, 0] =
      some (.error "Could not place more queens on the board (is it filled?)", []) ∧
    placedAfter 2 (Board.new 4) [0, 0, 1, 0] = some 2 := by
  constructor
  · decide
  · decide

/-- C3 amended: fillRandomly succeeds iff the target count of successful
placements is reached within STRICTLY FEWER than maxAttempts draws (the
final iteration is consumed by the success check); equivalently it fails
exactly when count is not reached by draw maxAttempts - 1. -/
theorem init_queens_succeeds_iff (fuel count : Nat) (b : Board) (s : RandS) :
    (∃ b' s', init_queens_go fuel b count 0 s = some (.ok b', s')) ↔
    (∃ k < fuel, placedAfter k b s = some count) := by
  rw [init_go_ok_iff count fuel 0 b s (Nat.zero_le count)]
  constructor
  · rintro ⟨k, hk, m, hm, hsum⟩
    exact ⟨k, hk, by rwa [show m = count from by omega] at hm⟩
  · rintro ⟨k, hk, hm⟩
    exact ⟨k, hk, count, hm, by omega⟩

/-- Witness for C3 amended: the same draw sequence succeeds once the
budget leaves an iteration for the success check. -/
theorem init_queens_succeeds_iff_witness :
    ∃ b' s', init_queens_go 3 (Board.new 4) 2 0 [0, 0, 1, 0] = some (.ok b', s') :=
  (init_queens_succeeds_iff 3 2 (Board.new 4) [0, 0, 1, 0]).mpr ⟨2, by decide, by decide⟩

/-- C4: the lower_heuristic loop (descendOnce) returns Ok only with
postConflicts ≤ preConflicts — post being the conflict count of the board
it leaves behind — and it reports the stuck-in-local-minimum error
exactly when every relocation attempted within the budget strictly
worsened the conflict count (each being reverted before the retry). -/
theorem lower_heuristic_spec (fuel : Nat) :
    ∀ (b : Board) (s : RandS),
    (∀ pre post f t b' s',
        lower_heuristic fuel b s = some (.ok (pre, post, f, t), b', s') →
        post ≤ pre ∧ post = b'.checks_count) ∧
    ((∃ b' s', lower_heuristic fuel b s =
        some (.error "Got stuck in a local minima", b', s')) ↔
      worsens fuel b s = true) := by
  induction fuel with
  | zero =>
    intro b s
    constructor
    · intro pre post f t b' s' h
      unfold lower_heuristic at h
      exact absurd h (by simp)
    · constructor
      · intro _
        rfl
      · intro _
        exact ⟨b, s, rfl⟩
  | succ fuel ih =>
    intro b s
    cases hm : b.move_most_checked s with
    | none =>
      have hstep : lower_heuristic (fuel + 1) b s = none := by
        unfold lower_heuristic
        rw [hm]
      have hwstep : worsens (fuel + 1) b s = false := by
        unfold worsens
        rw [hm]
      constructor
      · intro pre post f t b' s' h
        rw [hstep] at h
        exact absurd h (by simp)
      · constructor
        · rintro ⟨b', s', h⟩
          rw [hstep] at h
          exact absurd h (by simp)
        · intro hw
          rw [hwstep] at hw
          exact absurd hw (by simp)
    | some r =>
      obtain ⟨f0, t0, b1, s1⟩ := r
      by_cases hlt : b.checks_count < b1.checks_count
      · cases hrev : b1.mov t0 f0 with
        | none =>
          have hstep : lower_heuristic (fuel + 1) b s = none := by
            unfold lower_heuristic
            rw [hm]
            simp only []
            rw [if_pos hlt, hrev]
          have hwstep : worsens (fuel + 1) b s = false := by
            unfold worsens
            rw [hm]
            simp only []
            rw [if_pos hlt, hrev]
          constructor
          · intro pre post f t b' s' h
            rw [hstep] at h
            exact absurd h (by simp)
          · constructor
            · rintro ⟨b', s', h⟩
              rw [hstep] at h
              exact absurd h (by simp)
            · intro hw
              rw [hwstep] at hw
              exact absurd hw (by simp)
        | some be =>
          obtain ⟨b2, e⟩ := be
          cases e with
          | ok u =>
            have hstep : lower_heuristic (fuel + 1) b s = lower_heuristic fuel b2 s1 := by
              conv_lhs => unfold lower_heuristic
              rw [hm]
              simp only []
              rw [if_pos hlt, hrev]
            have hwstep : worsens (fuel + 1) b s = worsens fuel b2 s1 := by
              conv_lhs => unfold worsens
              rw [hm]
              simp only []
              rw [if_pos hlt, hrev]
            constructor
            · intro pre post f t b' s' h
              rw [hstep] at h
              exact (ih b2 s1).1 pre post f t b' s' h
            · rw [hwstep]
              simp only [hstep]
              exact (ih b2 s1).2
          | error msg =>
            have hstep : lower_heuristic (fuel + 1) b s = none := by
              unfold lower_heuristic
              rw [hm]
              simp only []
              rw [if_pos hlt, hrev]
            have hwstep : worsens (fuel + 1) b s = false := by
              unfold worsens
              rw [hm]
              simp only []
              rw [if_pos hlt, hrev]
            constructor
            · intro pre post f t b' s' h
              rw [hstep] at h
              exact absurd h (by simp)
            · constructor
              · rintro ⟨b', s', h⟩
                rw [hstep] at h
                exact absurd h (by simp)
              · intro hw
                rw [hwstep] at hw
                exact absurd hw (by simp)
      · have hstep : lower_heuristic (fuel + 1) b s =
            some (.ok (b.checks_count, b1.checks_count, f0, t0), b1, s1) := by
          unfold lower_heuristic
          rw [hm]
          simp only []
          rw [if_neg hlt]
        have hwstep : worsens (fuel + 1) b s = false := by
          unfold worsens
          rw [hm]
          simp only []
          rw [if_neg hlt]
        constructor
        · intro pre post f t b' s' h
          rw [hstep] at h
          simp only [Option.some.injEq, Prod.mk.injEq, Except.ok.injEq] at h
          obtain ⟨⟨h1, h2, h3, h4⟩, h5, h6⟩ := h
          constructor
          · rw [← h1, ← h2]
            omega
          · rw [← h2, ← h5]
        · constructor
          · rintro ⟨b', s', h⟩
            rw [hstep] at h
            exact absurd h (by simp)
          · intro hw
            rw [hwstep] at hw
            exact absurd hw (by simp)

/-- Witness for C4: a concrete one-attempt run that accepts the move
(0,1) to (1,2), lowering the conflict count from 1 to 0. -/
theorem lower_heuristic_spec_witness :
    (0 : Nat) ≤ 1 ∧ (0 : Nat) = board2moved.checks_count :=
  (lower_heuristic_spec 1 board2 [1, 2]).1 1 0 ⟨0, 1⟩ ⟨1, 2⟩ board2moved []
    (by decide)

/-- C2 counterexample: a run seeded with 4 ≥ 2 = survivorCount boards
still hits the population-collapse panic — at generation 1 — because
reproduction performs only population / parents = 4 / 5 = 0 child
attempts, leaving the next generation empty. -/
theorem genetic_collapse_cex :
    genetic_solution cfgC2 s0C2 = .collapsed 1 ∧
    cfgC2.survivors ≤ cfgC2.population := by
  constructor
  · decide
  · decide

/-- Refining every board of the environment preserves its size. -/
theorem refine_env_length (moves : Nat) :
    ∀ (env : List Board) (s : RandS) (env' : List Board) (s' : RandS),
    refine_env moves env s = some (env', s') → env'.length = env.length := by
  intro env
  induction env with
  | nil =>
    intro s env' s' h
    unfold refine_env at h
    simp at h
    simp [← h.1]
  | cons b rest ih =>
    intro s env' s' h
    unfold refine_env at h
    cases hb : refine_board moves b s with
    | none => rw [hb] at h; exact absurd h (by simp)
    | some p =>
      obtain ⟨b1, s1⟩ := p
      rw [hb] at h
      simp only [] at h
      cases hrest : refine_env moves rest s1 with
      | none => rw [hrest] at h; exact absurd h (by simp)
      | some q =>
        obtain ⟨rest1, s2⟩ := q
        rw [hrest] at h
        simp at h
        rw [← h.1]
        simp [ih s1 rest1 s2 hrest]

/-- A collapse reported by the generation loop carries a generation
index no smaller than the loop's starting index. -/
theorem ga_collapse_ge (cfg : GAConfig) :
    ∀ (fuel g : Nat) (env : List Board) (s : RandS) (k : Nat),
    ga_loop cfg fuel g env s = .collapsed k → g ≤ k := by
  intro fuel
  induction fuel with
  | zero =>
    intro g env s k h
    unfold ga_loop at h
    exact absurd h (by simp)
  | succ fuel ih =>
    intro g env s k h
    unfold ga_loop at h
    cases hr : refine_env cfg.moves_in_generation env s with
    | none => rw [hr] at h; exact absurd h (by simp)
    | some p =>
      obtain ⟨env1, s1⟩ := p
      rw [hr] at h
      simp only [] at h
      by_cases hlen : (sortByChecks env1).length < cfg.survivors
      · rw [if_pos hlen] at h
        simp at h
        omega
      · rw [if_neg hlen] at h
        cases hh : (((sortByChecks env1).take cfg.survivors).map Board.checks_count).head? with
        | none => rw [hh] at h; exact absurd h (by simp)
        | some h0 =>
          rw [hh] at h
          simp only [] at h
          by_cases h00 : h0 = 0
          · rw [if_pos h00] at h
            exact absurd h (by simp)
          · rw [if_neg h00] at h
            cases hrep : reproduce cfg ((sortByChecks env1).take cfg.survivors)
                (cfg.population / cfg.parents) s1 [] with
            | none => rw [hrep] at h; exact absurd h (by simp)
            | some q =>
              obtain ⟨env2, s2⟩ := q
              rw [hrep] at h
              have hge := ih (g + 1) env2 s2 k h
              omega

/-- C2 amended: seeded with a population at least survivorCount, the
collapse check can never fire at the FIRST generation (index 0) — the
refinement step preserves the population size and the sort preserves
length — though, unlike the claim, later generations can collapse (see
the counterexample run). -/
theorem ga_no_collapse_first_generation (cfg : GAConfig) (fuel : Nat)
    (env : List Board) (s : RandS) (h : cfg.survivors ≤ env.length) :
    ga_loop cfg fuel 0 env s ≠ .collapsed 0 := by
  cases fuel with
  | zero =>
    unfold ga_loop
    simp
  | succ fuel =>
    unfold ga_loop
    cases hr : refine_env cfg.moves_in_generation env s with
    | none => simp
    | some p =>
      obtain ⟨env1, s1⟩ := p
      simp only []
      have hlen : ¬ (sortByChecks env1).length < cfg.survivors := by
        unfold sortByChecks
        rw [List.length_insertionSort]
        rw [refine_env_length cfg.moves_in_generation env s env1 s1 hr]
        omega
      rw [if_neg hlen]
      cases hh : (((sortByChecks env1).take cfg.survivors).map Board.checks_count).head? with
      | none => simp
      | some h0 =>
        simp only []
        by_cases h00 : h0 = 0
        · rw [if_pos h00]
          simp
        · rw [if_neg h00]
          cases hrep : reproduce cfg ((sortByChecks env1).take cfg.survivors)
              (cfg.population / cfg.parents) s1 [] with
          | none => simp
          | some q =>
            obtain ⟨env2, s2⟩ := q
            intro hcol
            have hge := ga_collapse_ge cfg fuel 1 env2 s2 0 hcol
            omega

/-- Witness for C2 amended at a concrete configuration. -/
theorem ga_no_collapse_first_generation_witness :
    ga_loop cfgFirstGen 1 0 [] [] ≠ GAOutcome.collapsed 0 :=
  ga_no_collapse_first_generation cfgFirstGen 1 [] [] (by decide)
